import Mathlib

/-!
Shallow embedding of the conflating relay from pgwhalen/conflate-talk.

The repository's core is the generic relay goroutine `ConflateV3[T Conflater[T]]`
in src/src/solutions/V3_solution.go, its predecessor `ConflateV2` in
src/src/solutions/V2_solution.go, and the `Sale` payload type in src/src/main.go.

Modelling choices, justified against the Go source:
* One iteration of the relay's `for` loop is split into the first `select`
  (`phase1`: either a value is received on `inCh` or the retry timer channel
  fires) followed by the second `select` (`attemptDelivery`: a non-blocking
  send on `outCh` that succeeds exactly when the consumer is ready).
* The pair `retryTimer`/`retryCh` is modelled as a single `Option Nat`:
  `some d` means an armed, not-yet-fired, not-stopped one-shot timer created
  with duration `d`; `none` covers a nil `retryCh`, a stopped timer and a
  fired (drained) one-shot timer.  This is observationally faithful: a Go
  `select` case on a nil channel, on the channel of a stopped timer, or on the
  already-drained channel of a fired one-shot timer can never proceed, so none
  of those states can produce a timer event.
* Which `select` case runs is supplied externally as an `Event`; a trace is a
  list of iterations (event plus consumer readiness).  `validFrom` states that
  a timer-fire event only occurs while a timer is armed, matching the Go
  semantics above.
* `time.Duration` is modelled as `Nat` (nanoseconds); real time itself plays
  no role in the loop's data flow.
-/

/-- Conflater interface from src/src/solutions/V3_solution.go: a payload type
supporting `ConflateWith(latest C) C` and `ZeroValue() C`; both are methods,
so they take the receiver as their first argument. -/
structure Conflater (T : Type) where
  ConflateWith : T → T → T
  ZeroValue : T → T

/-- Outcome of the relay's first `select`: either a value was received on
`inCh`, or the armed retry timer's channel fired. -/
inductive Event (T : Type) where
  | input : T → Event T
  | timerFire : Event T
deriving DecidableEq

/-- One iteration of the relay loop: which case of the first `select` ran, and
whether the consumer was ready to receive during the second `select` (so that
the non-blocking send `outCh <- conflatedMessage` succeeds). -/
structure Iteration (T : Type) where
  event : Event T
  consumerReady : Bool
deriving DecidableEq

/-- Local state of the `ConflateV3` goroutine: the accumulator
`conflatedMessage` and the retry timer (`some d` = armed with duration `d`,
`none` = nil / stopped / already fired). -/
structure RelayState (T : Type) where
  conflatedMessage : T
  retryTimer : Option Nat
deriving DecidableEq

/-- First `select` of `ConflateV3`'s loop.  On input: the accumulator is
merged via `ConflateWith` and, if a timer is armed, it is stopped and its
channel cleared (`retryTimer.Stop(); retryCh = nil`); if no timer is armed the
state is already `none`.  On a timer fire: the one-shot timer is consumed, so
no armed timer remains. -/
def ConflateV3.phase1 {T : Type} (c : Conflater T) (s : RelayState T) :
    Event T → RelayState T
  | .input lastMsg =>
      { conflatedMessage := c.ConflateWith s.conflatedMessage lastMsg
        retryTimer := none }
  | .timerFire => { s with retryTimer := none }

/-- Second `select` of `ConflateV3`'s loop: a non-blocking send of the
accumulator on `outCh`.  If the consumer is ready the value is delivered and
the accumulator is reset via `ZeroValue`; otherwise a fresh retry timer is
armed for `retryInterval` (`retryTimer = time.NewTimer(retryInterval)`). -/
def ConflateV3.attemptDelivery {T : Type} (retryInterval : Nat) (c : Conflater T)
    (s : RelayState T) (consumerReady : Bool) : RelayState T × Option T :=
  if consumerReady then
    ({ conflatedMessage := c.ZeroValue s.conflatedMessage
       retryTimer := s.retryTimer }, some s.conflatedMessage)
  else
    ({ s with retryTimer := some retryInterval }, none)

/-- One full iteration of the `ConflateV3` loop. -/
def ConflateV3.step {T : Type} (retryInterval : Nat) (c : Conflater T)
    (s : RelayState T) (it : Iteration T) : RelayState T × Option T :=
  ConflateV3.attemptDelivery retryInterval c
    (ConflateV3.phase1 c s it.event) it.consumerReady

/-- Run the relay loop over a finite trace of iterations, collecting the
delivered values in order. -/
def ConflateV3.run {T : Type} (retryInterval : Nat) (c : Conflater T) :
    RelayState T → List (Iteration T) → RelayState T × List T
  | s, [] => (s, [])
  | s, it :: its =>
      let p := ConflateV3.step retryInterval c s it
      let r := ConflateV3.run retryInterval c p.1 its
      (r.1, p.2.toList ++ r.2)

/-- Whether an event can occur in a given state: an input can always arrive,
while the retry channel can only fire when an armed, not-yet-fired timer
exists (a select case on a nil, stopped, or drained timer channel never
proceeds). -/
def ConflateV3.okEventB {T : Type} (s : RelayState T) : Event T → Bool
  | .input _ => true
  | .timerFire => s.retryTimer.isSome

/-- A trace is valid from a state when every timer-fire event occurs while a
timer is armed. -/
def ConflateV3.validFrom {T : Type} (retryInterval : Nat) (c : Conflater T) :
    RelayState T → List (Iteration T) → Bool
  | _, [] => true
  | s, it :: its =>
      ConflateV3.okEventB s it.event &&
        ConflateV3.validFrom retryInterval c
          (ConflateV3.step retryInterval c s it).1 its

/-- Initial state of the goroutine: `var conflatedMessage T` and a nil timer.
Go initialises `conflatedMessage` to the zero value of `T`; for the
repository's only instantiation (`Sale`) this coincides with `ZeroValue()`
(both are `Sale{}`), so theorems take the initial accumulator as the constant
value of `ZeroValue`. -/
def ConflateV3.initState {T : Type} (t0 : T) : RelayState T :=
  { conflatedMessage := t0, retryTimer := none }

/-- Values submitted on `inCh` during a trace, in order. -/
def inputsOf {T : Type} : List (Iteration T) → List T
  | [] => []
  | it :: its =>
      match it.event with
      | .input v => v :: inputsOf its
      | .timerFire => inputsOf its

/-- Combine-fold of a list of values starting from `z`, in arrival order:
`cfold c z [v1, ..., vk] = (..(z.ConflateWith v1)..).ConflateWith vk`. -/
def cfold {T : Type} (c : Conflater T) (z : T) (l : List T) : T :=
  l.foldl c.ConflateWith z

/-- Values received since the last successful delivery (or since start), given
the values `acc` already pending at the beginning of the trace. -/
def receivedSinceAux {T : Type} : List T → List (Iteration T) → List T
  | acc, [] => acc
  | acc, it :: its =>
      let acc1 :=
        match it.event with
        | .input v => acc ++ [v]
        | .timerFire => acc
      receivedSinceAux (if it.consumerReady then [] else acc1) its

/-- Values received since the last successful delivery in a trace started with
nothing pending. -/
def receivedSince {T : Type} (its : List (Iteration T)) : List T :=
  receivedSinceAux [] its

/-- Checks that every successful delivery in the trace happens only after at
least one input has been merged since the previous successful delivery (or
since start); `pending` records whether such an input exists initially. -/
def noBareDeliveryAux {T : Type} : Bool → List (Iteration T) → Bool
  | _, [] => true
  | pending, it :: its =>
      let pending1 :=
        match it.event with
        | .input _ => true
        | .timerFire => pending
      (!it.consumerReady || pending1) &&
        noBareDeliveryAux (if it.consumerReady then false else pending1) its

/-- Models which case Go's first `select` may take when `pendingInput` is a
value a sender is offering on `inCh` and `timerFired` says the armed timer's
channel holds a fired tick.  Per the Go specification, when several cases can
proceed the `select` chooses among them by uniform pseudo-random selection, so
every ready case is a possible choice. -/
def selectCanChoose {T : Type} (s : RelayState T) (pendingInput : Option T)
    (timerFired : Bool) : Event T → Prop
  | .input v => pendingInput = some v
  | .timerFire => timerFired = true ∧ s.retryTimer.isSome = true

/-- Concrete conflater on Nat used to exercise the generic relay theorems:
merging adds, and the zero value is 0. -/
def addConflater : Conflater Nat :=
  { ConflateWith := fun a b => a + b, ZeroValue := fun _ => 0 }

/-- Sale from src/src/main.go: `dollars float64` is modelled as a rational
number (only addition of exact amounts occurs), and `timestamp time.Time` as
an integer on the time line with the zero value `time.Time{}` at 0; `After`
becomes the strict order `>`.  Instants before the zero value (years before 1)
are representable `time.Time` values, hence negative integers are included. -/
structure Sale where
  dollars : ℚ
  timestamp : ℤ
deriving DecidableEq

/-- Function maxTime from src/src/main.go: returns `t1` if `t1.After(t2)`,
otherwise `t2`. -/
def maxTime (t1 t2 : ℤ) : ℤ :=
  if t1 > t2 then t1 else t2

/-- Method Sale.ConflateWith from src/src/main.go: adds the dollar amounts and
keeps the later timestamp. -/
def Sale.ConflateWith (s s2 : Sale) : Sale :=
  { dollars := s.dollars + s2.dollars
    timestamp := maxTime s.timestamp s2.timestamp }

/-- Method Sale.ZeroValue from src/src/main.go: returns `Sale{}` (dollars 0,
the zero timestamp), ignoring the receiver. -/
def Sale.ZeroValue (_ : Sale) : Sale :=
  { dollars := 0, timestamp := 0 }

/-- The Conflater instance that `ConflateV3[Sale]` uses in src/src/main.go. -/
def saleConflater : Conflater Sale :=
  { ConflateWith := Sale.ConflateWith, ZeroValue := Sale.ZeroValue }

/-- Local state of the `ConflateV2` goroutine from
src/src/solutions/V2_solution.go: the most recently received message and the
retry timer, modelled exactly as for `ConflateV3`. -/
structure V2State (T : Type) where
  lastMsg : T
  retryTimer : Option Nat
deriving DecidableEq

/-- First `select` of `ConflateV2`'s loop: an arriving value overwrites
`lastMsg` (no merging) and stops and clears any armed timer; a timer fire
consumes the one-shot timer. -/
def ConflateV2.phase1 {T : Type} (s : V2State T) : Event T → V2State T
  | .input v => { lastMsg := v, retryTimer := none }
  | .timerFire => { s with retryTimer := none }

/-- Second `select` of `ConflateV2`'s loop: a non-blocking send of `lastMsg`.
On success nothing is reset; on failure a fresh retry timer is armed. -/
def ConflateV2.attemptDelivery {T : Type} (retryInterval : Nat) (s : V2State T)
    (consumerReady : Bool) : V2State T × Option T :=
  if consumerReady then (s, some s.lastMsg)
  else ({ s with retryTimer := some retryInterval }, none)

/-- One full iteration of the `ConflateV2` loop. -/
def ConflateV2.step {T : Type} (retryInterval : Nat) (s : V2State T)
    (it : Iteration T) : V2State T × Option T :=
  ConflateV2.attemptDelivery retryInterval
    (ConflateV2.phase1 s it.event) it.consumerReady

/-- Run the `ConflateV2` loop over a finite trace, collecting deliveries. -/
def ConflateV2.run {T : Type} (retryInterval : Nat) :
    V2State T → List (Iteration T) → V2State T × List T
  | s, [] => (s, [])
  | s, it :: its =>
      let p := ConflateV2.step retryInterval s it
      let r := ConflateV2.run retryInterval p.1 its
      (r.1, p.2.toList ++ r.2)

/-- Event admissibility for `ConflateV2`, as for `ConflateV3`. -/
def ConflateV2.okEventB {T : Type} (s : V2State T) : Event T → Bool
  | .input _ => true
  | .timerFire => s.retryTimer.isSome

/-- Trace validity for `ConflateV2`, as for `ConflateV3`. -/
def ConflateV2.validFrom {T : Type} (retryInterval : Nat) :
    V2State T → List (Iteration T) → Bool
  | _, [] => true
  | s, it :: its =>
      ConflateV2.okEventB s it.event &&
        ConflateV2.validFrom retryInterval
          (ConflateV2.step retryInterval s it).1 its

/-- Folding one more value on the right merges it into the fold of the prefix. -/
theorem cfold_snoc {T : Type} (c : Conflater T) (z v : T) (l : List T) :
    cfold c z (l ++ [v]) = c.ConflateWith (cfold c z l) v := by
  simp [cfold, List.foldl_append]

/-- Core invariant of `ConflateV3`: along any valid trace, the values
submitted so far split into the contiguous non-empty groups whose folds were
delivered, in order, followed by the residue still held in the accumulator;
moreover an armed timer implies a non-empty residue. -/
theorem run_partition_aux {T : Type} (ri : Nat) (c : Conflater T) (z : T)
    (hz : ∀ x, c.ZeroValue x = z) :
    ∀ (its : List (Iteration T)) (s : RelayState T) (rest : List T),
      s.conflatedMessage = cfold c z rest →
      (s.retryTimer.isSome = true → rest ≠ []) →
      ConflateV3.validFrom ri c s its = true →
      ∃ (groups : List (List T)) (rest' : List T),
        rest ++ inputsOf its = groups.flatten ++ rest' ∧
        (∀ g ∈ groups, g ≠ ([] : List T)) ∧
        (ConflateV3.run ri c s its).2 = groups.map (cfold c z) ∧
        (ConflateV3.run ri c s its).1.conflatedMessage = cfold c z rest' ∧
        ((ConflateV3.run ri c s its).1.retryTimer.isSome = true → rest' ≠ []) := by
  intro its
  induction its with
  | nil =>
      intro s rest hacc htimer _
      exact ⟨[], rest, by simp [inputsOf], by simp, by simp [ConflateV3.run],
        by simpa [ConflateV3.run] using hacc, by simpa [ConflateV3.run] using htimer⟩
  | cons it its ih =>
      intro s rest hacc htimer hv
      obtain ⟨e, ready⟩ := it
      rw [ConflateV3.validFrom, Bool.and_eq_true] at hv
      obtain ⟨hok, hv'⟩ := hv
      cases e with
      | input v =>
          cases ready with
          | true =>
              have hstep : ConflateV3.step ri c s ⟨Event.input v, true⟩ =
                  (⟨z, none⟩, some (c.ConflateWith s.conflatedMessage v)) := by
                simp [ConflateV3.step, ConflateV3.phase1, ConflateV3.attemptDelivery, hz]
              obtain ⟨groups, rest', h1, h2, h3, h4, h5⟩ :=
                ih (⟨z, none⟩ : RelayState T) [] (by simp [cfold]) (by simp)
                  (by rw [hstep] at hv'; exact hv')
              refine ⟨(rest ++ [v]) :: groups, rest', ?_, ?_, ?_, ?_, ?_⟩
              · simp only [inputsOf, List.flatten_cons, List.append_assoc]
                rw [← h1]
                simp
              · intro g hg
                rcases List.mem_cons.mp hg with rfl | hg
                · simp
                · exact h2 g hg
              · simp only [ConflateV3.run, hstep, Option.toList_some, List.map_cons]
                rw [h3, cfold_snoc, hacc]
                simp
              · simpa [ConflateV3.run, hstep] using h4
              · simpa [ConflateV3.run, hstep] using h5
          | false =>
              have hstep : ConflateV3.step ri c s ⟨Event.input v, false⟩ =
                  (⟨c.ConflateWith s.conflatedMessage v, some ri⟩, none) := by
                simp [ConflateV3.step, ConflateV3.phase1, ConflateV3.attemptDelivery]
              obtain ⟨groups, rest', h1, h2, h3, h4, h5⟩ :=
                ih (⟨c.ConflateWith s.conflatedMessage v, some ri⟩ : RelayState T)
                  (rest ++ [v]) (by rw [cfold_snoc, hacc]) (by simp)
                  (by rw [hstep] at hv'; exact hv')
              refine ⟨groups, rest', ?_, h2, ?_, ?_, ?_⟩
              · simpa [inputsOf] using h1
              · simpa [ConflateV3.run, hstep] using h3
              · simpa [ConflateV3.run, hstep] using h4
              · simpa [ConflateV3.run, hstep] using h5
      | timerFire =>
          have hrest : rest ≠ [] := htimer (by simpa [ConflateV3.okEventB] using hok)
          cases ready with
          | true =>
              have hstep : ConflateV3.step ri c s ⟨Event.timerFire, true⟩ =
                  (⟨z, none⟩, some s.conflatedMessage) := by
                simp [ConflateV3.step, ConflateV3.phase1, ConflateV3.attemptDelivery, hz]
              obtain ⟨groups, rest', h1, h2, h3, h4, h5⟩ :=
                ih (⟨z, none⟩ : RelayState T) [] (by simp [cfold]) (by simp)
                  (by rw [hstep] at hv'; exact hv')
              refine ⟨rest :: groups, rest', ?_, ?_, ?_, ?_, ?_⟩
              · simp only [inputsOf, List.flatten_cons, List.append_assoc]
                rw [← h1]
                simp
              · intro g hg
                rcases List.mem_cons.mp hg with rfl | hg
                · exact hrest
                · exact h2 g hg
              · simp only [ConflateV3.run, hstep, Option.toList_some, List.map_cons]
                rw [h3, hacc]
                simp
              · simpa [ConflateV3.run, hstep] using h4
              · simpa [ConflateV3.run, hstep] using h5
          | false =>
              have hstep : ConflateV3.step ri c s ⟨Event.timerFire, false⟩ =
                  (⟨s.conflatedMessage, some ri⟩, none) := by
                simp [ConflateV3.step, ConflateV3.phase1, ConflateV3.attemptDelivery]
              obtain ⟨groups, rest', h1, h2, h3, h4, h5⟩ :=
                ih (⟨s.conflatedMessage, some ri⟩ : RelayState T) rest
                  (by simpa using hacc) (fun _ => hrest)
                  (by rw [hstep] at hv'; exact hv')
              refine ⟨groups, rest', ?_, h2, ?_, ?_, ?_⟩
              · simpa [inputsOf] using h1
              · simpa [ConflateV3.run, hstep] using h3
              · simpa [ConflateV3.run, hstep] using h4
              · simpa [ConflateV3.run, hstep] using h5

/-- Accumulator invariant of `ConflateV3`: the accumulator always equals the
combine-fold of the values received since the last successful delivery, given
the values already pending at the start of the trace. -/
theorem run_acc_aux {T : Type} (ri : Nat) (c : Conflater T) (z : T)
    (hz : ∀ x, c.ZeroValue x = z) :
    ∀ (its : List (Iteration T)) (s : RelayState T) (acc0 : List T),
      s.conflatedMessage = cfold c z acc0 →
      (ConflateV3.run ri c s its).1.conflatedMessage =
        cfold c z (receivedSinceAux acc0 its) := by
  intro its
  induction its with
  | nil =>
      intro s acc0 hacc
      simpa [ConflateV3.run, receivedSinceAux] using hacc
  | cons it its ih =>
      intro s acc0 hacc
      obtain ⟨e, ready⟩ := it
      cases e with
      | input v =>
          cases ready with
          | true =>
              have h1 : (ConflateV3.run ri c s (⟨Event.input v, true⟩ :: its)).1 =
                  (ConflateV3.run ri c
                    (⟨c.ZeroValue (c.ConflateWith s.conflatedMessage v), none⟩ :
                      RelayState T) its).1 := by
                simp [ConflateV3.run, ConflateV3.step, ConflateV3.phase1,
                  ConflateV3.attemptDelivery]
              rw [h1]
              have h2 : receivedSinceAux acc0 (⟨Event.input v, true⟩ :: its) =
                  receivedSinceAux [] its := by
                simp [receivedSinceAux]
              rw [h2]
              exact ih _ [] (by simp [cfold, hz])
          | false =>
              have h1 : (ConflateV3.run ri c s (⟨Event.input v, false⟩ :: its)).1 =
                  (ConflateV3.run ri c
                    (⟨c.ConflateWith s.conflatedMessage v, some ri⟩ :
                      RelayState T) its).1 := by
                simp [ConflateV3.run, ConflateV3.step, ConflateV3.phase1,
                  ConflateV3.attemptDelivery]
              rw [h1]
              have h2 : receivedSinceAux acc0 (⟨Event.input v, false⟩ :: its) =
                  receivedSinceAux (acc0 ++ [v]) its := by
                simp [receivedSinceAux]
              rw [h2]
              exact ih _ (acc0 ++ [v]) (by rw [cfold_snoc, hacc])
      | timerFire =>
          cases ready with
          | true =>
              have h1 : (ConflateV3.run ri c s (⟨Event.timerFire, true⟩ :: its)).1 =
                  (ConflateV3.run ri c
                    (⟨c.ZeroValue s.conflatedMessage, none⟩ : RelayState T) its).1 := by
                simp [ConflateV3.run, ConflateV3.step, ConflateV3.phase1,
                  ConflateV3.attemptDelivery]
              rw [h1]
              have h2 : receivedSinceAux acc0 (⟨Event.timerFire, true⟩ :: its) =
                  receivedSinceAux [] its := by
                simp [receivedSinceAux]
              rw [h2]
              exact ih _ [] (by simp [cfold, hz])
          | false =>
              have h1 : (ConflateV3.run ri c s (⟨Event.timerFire, false⟩ :: its)).1 =
                  (ConflateV3.run ri c
                    (⟨s.conflatedMessage, some ri⟩ : RelayState T) its).1 := by
                simp [ConflateV3.run, ConflateV3.step, ConflateV3.phase1,
                  ConflateV3.attemptDelivery]
              rw [h1]
              have h2 : receivedSinceAux acc0 (⟨Event.timerFire, false⟩ :: its) =
                  receivedSinceAux acc0 its := by
                simp [receivedSinceAux]
              rw [h2]
              exact ih _ acc0 hacc

/-- Along a valid trace, every successful delivery is preceded by at least one
input merged since the previous successful delivery, provided the pending flag
dominates the armed-timer flag at the start. -/
theorem noBare_aux {T : Type} (ri : Nat) (c : Conflater T) :
    ∀ (its : List (Iteration T)) (s : RelayState T) (pending : Bool),
      (s.retryTimer.isSome = true → pending = true) →
      ConflateV3.validFrom ri c s its = true →
      noBareDeliveryAux pending its = true := by
  intro its
  induction its with
  | nil => intro s pending _ _; rfl
  | cons it its ih =>
      intro s pending hp hv
      obtain ⟨e, ready⟩ := it
      rw [ConflateV3.validFrom, Bool.and_eq_true] at hv
      obtain ⟨hok, hv'⟩ := hv
      cases e with
      | input v =>
          cases ready with
          | true =>
              simp only [noBareDeliveryAux, Bool.and_eq_true]
              refine ⟨by simp, ?_⟩
              refine ih _ false ?_ hv'
              simp [ConflateV3.step, ConflateV3.phase1, ConflateV3.attemptDelivery]
          | false =>
              simp only [noBareDeliveryAux, Bool.and_eq_true]
              exact ⟨by simp, ih _ true (fun _ => rfl) hv'⟩
      | timerFire =>
          have hpend : pending = true := hp (by simpa [ConflateV3.okEventB] using hok)
          subst hpend
          cases ready with
          | true =>
              simp only [noBareDeliveryAux, Bool.and_eq_true]
              refine ⟨by simp, ?_⟩
              refine ih _ false ?_ hv'
              simp [ConflateV3.step, ConflateV3.phase1, ConflateV3.attemptDelivery]
          | false =>
              simp only [noBareDeliveryAux, Bool.and_eq_true]
              exact ⟨by simp, ih _ true (fun _ => rfl) hv'⟩

/-- With no armed timer and no arriving input, the relay's first select blocks
forever: a valid trace without input events must be empty. -/
theorem blocked_aux {T : Type} (ri : Nat) (c : Conflater T) :
    ∀ (its : List (Iteration T)) (s : RelayState T),
      s.retryTimer = none →
      ConflateV3.validFrom ri c s its = true →
      inputsOf its = [] → its = [] := by
  intro its
  cases its with
  | nil => intro s _ _ _; rfl
  | cons it its =>
      intro s hnone hv hinp
      obtain ⟨e, ready⟩ := it
      cases e with
      | input v => simp [inputsOf] at hinp
      | timerFire =>
          rw [ConflateV3.validFrom, Bool.and_eq_true] at hv
          have h := hv.1
          rw [ConflateV3.okEventB] at h
          rw [hnone] at h
          simp at h

/-- Submitted values distribute over trace concatenation. -/
theorem inputsOf_append {T : Type} :
    ∀ (l1 l2 : List (Iteration T)),
      inputsOf (l1 ++ l2) = inputsOf l1 ++ inputsOf l2 := by
  intro l1
  induction l1 with
  | nil => intro l2; simp [inputsOf]
  | cons it l1 ih =>
      intro l2
      obtain ⟨e, r⟩ := it
      cases e <;> simp [inputsOf, ih]

/-- Validity of a concatenated `ConflateV2` trace splits at the junction. -/
theorem v2validFrom_append {T : Type} (ri : Nat) :
    ∀ (l1 l2 : List (Iteration T)) (s : V2State T),
      ConflateV2.validFrom ri s (l1 ++ l2) =
        (ConflateV2.validFrom ri s l1 &&
          ConflateV2.validFrom ri (ConflateV2.run ri s l1).1 l2) := by
  intro l1
  induction l1 with
  | nil => intro l2 s; simp [ConflateV2.validFrom, ConflateV2.run]
  | cons it l1 ih =>
      intro l2 s
      simp [ConflateV2.validFrom, ConflateV2.run, ih, Bool.and_assoc]

/-- Invariant of `ConflateV2`: `lastMsg` always equals the most recently
submitted value (or the initial zero value when none has arrived), and an
armed timer implies at least one value has been submitted. -/
theorem v2run_lastMsg {T : Type} (ri : Nat) (t0 : T) :
    ∀ (its : List (Iteration T)) (s : V2State T) (seen : List T),
      s.lastMsg = seen.getLastD t0 →
      (s.retryTimer.isSome = true → seen ≠ []) →
      ConflateV2.validFrom ri s its = true →
      (ConflateV2.run ri s its).1.lastMsg = (seen ++ inputsOf its).getLastD t0 ∧
      ((ConflateV2.run ri s its).1.retryTimer.isSome = true →
        seen ++ inputsOf its ≠ []) := by
  intro its
  induction its with
  | nil =>
      intro s seen hlast htimer _
      constructor
      · simpa [ConflateV2.run, inputsOf] using hlast
      · simpa [ConflateV2.run, inputsOf] using htimer
  | cons it its ih =>
      intro s seen hlast htimer hv
      obtain ⟨e, ready⟩ := it
      rw [ConflateV2.validFrom, Bool.and_eq_true] at hv
      obtain ⟨hok, hv'⟩ := hv
      cases e with
      | input v =>
          have hrun : (ConflateV2.run ri s (⟨Event.input v, ready⟩ :: its)).1 =
              (ConflateV2.run ri (ConflateV2.step ri s ⟨Event.input v, ready⟩).1 its).1 := by
            simp [ConflateV2.run]
          have hstate : (ConflateV2.step ri s ⟨Event.input v, ready⟩).1.lastMsg = v ∧
              ((ConflateV2.step ri s ⟨Event.input v, ready⟩).1.retryTimer.isSome = true →
                seen ++ [v] ≠ []) := by
            cases ready <;>
              simp [ConflateV2.step, ConflateV2.phase1, ConflateV2.attemptDelivery]
          obtain ⟨h1, h2⟩ := ih _ (seen ++ [v])
            (by rw [hstate.1, List.getLastD_concat]) hstate.2 hv'
          rw [hrun]
          constructor
          · rw [h1]
            simp [inputsOf]
          · intro hs
            have := h2 hs
            simp only [inputsOf]
            intro hcontra
            rw [List.append_assoc] at this
            simp only [List.singleton_append] at this
            exact this hcontra
      | timerFire =>
          have hseen : seen ≠ [] := htimer (by simpa [ConflateV2.okEventB] using hok)
          have hrun : (ConflateV2.run ri s (⟨Event.timerFire, ready⟩ :: its)).1 =
              (ConflateV2.run ri (ConflateV2.step ri s ⟨Event.timerFire, ready⟩).1 its).1 := by
            simp [ConflateV2.run]
          have hstate : (ConflateV2.step ri s ⟨Event.timerFire, ready⟩).1.lastMsg =
                s.lastMsg ∧
              ((ConflateV2.step ri s ⟨Event.timerFire, ready⟩).1.retryTimer.isSome = true →
                seen ≠ []) := by
            cases ready <;>
              simp [ConflateV2.step, ConflateV2.phase1, ConflateV2.attemptDelivery, hseen]
          obtain ⟨h1, h2⟩ := ih _ seen (by rw [hstate.1, hlast]) hstate.2 hv'
          rw [hrun]
          exact ⟨by rw [h1]; simp [inputsOf], by intro hs; simpa [inputsOf] using h2 hs⟩

/-- C1 (no-loss partition): for every valid finite trace of `ConflateV3`'s
relay loop starting from the identity accumulator, the delivered values are
exactly the combine-folds (each starting from `identity()`) of contiguous,
order-preserving, non-overlapping, non-empty groups of the submitted values,
the groups in delivery order cover a prefix of the submitted sequence with no
value lost or duplicated, the remainder is exactly the fold held in the
accumulator awaiting delivery, and when nothing remains undelivered the groups
partition the whole submitted sequence. -/
theorem conflateV3_no_loss_partition {T : Type} (ri : Nat) (c : Conflater T)
    (z : T) (hz : ∀ x, c.ZeroValue x = z) (its : List (Iteration T))
    (hv : ConflateV3.validFrom ri c (ConflateV3.initState z) its = true) :
    ∃ (groups : List (List T)) (rest : List T),
      inputsOf its = groups.flatten ++ rest ∧
      (∀ g ∈ groups, g ≠ ([] : List T)) ∧
      (ConflateV3.run ri c (ConflateV3.initState z) its).2 =
        groups.map (cfold c z) ∧
      (ConflateV3.run ri c (ConflateV3.initState z) its).1.conflatedMessage =
        cfold c z rest ∧
      (rest = [] → inputsOf its = groups.flatten) := by
  obtain ⟨g, r, h1, h2, h3, h4, _⟩ :=
    run_partition_aux ri c z hz its (ConflateV3.initState z) []
      (by simp [ConflateV3.initState, cfold]) (by simp [ConflateV3.initState]) hv
  refine ⟨g, r, by simpa using h1, h2, h3, h4, ?_⟩
  intro hr
  rw [hr] at h1
  simpa using h1

/-- Witness for C1: the literal scenario of spec section 8 with the additive
Nat conflater — submit 1 (consumer not ready), submit 2 (not ready), retry
fires with the consumer ready; the single delivery is the fold 3. -/
theorem conflateV3_no_loss_partition_witness :
    ∃ (groups : List (List Nat)) (rest : List Nat),
      inputsOf [⟨Event.input 1, false⟩, ⟨Event.input 2, false⟩,
          (⟨Event.timerFire, true⟩ : Iteration Nat)] = groups.flatten ++ rest ∧
      (∀ g ∈ groups, g ≠ ([] : List Nat)) ∧
      (ConflateV3.run 1 addConflater (ConflateV3.initState 0)
          [⟨Event.input 1, false⟩, ⟨Event.input 2, false⟩,
            ⟨Event.timerFire, true⟩]).2 = groups.map (cfold addConflater 0) ∧
      (ConflateV3.run 1 addConflater (ConflateV3.initState 0)
          [⟨Event.input 1, false⟩, ⟨Event.input 2, false⟩,
            ⟨Event.timerFire, true⟩]).1.conflatedMessage =
        cfold addConflater 0 rest ∧
      (rest = [] → inputsOf [⟨Event.input 1, false⟩, ⟨Event.input 2, false⟩,
          (⟨Event.timerFire, true⟩ : Iteration Nat)] = groups.flatten) :=
  conflateV3_no_loss_partition 1 addConflater 0 (fun _ => rfl)
    [⟨Event.input 1, false⟩, ⟨Event.input 2, false⟩, ⟨Event.timerFire, true⟩]
    (by decide)

/-- C2 (accumulator invariant): the accumulator starts at `identity()`, an
arriving value is merged into it with `ConflateWith`, and after any trace the
accumulator equals the combine-fold, from `identity()`, of exactly the values
received since the last successful delivery (or since start). -/
theorem conflateV3_accumulator_invariant {T : Type} (ri : Nat)
    (c : Conflater T) (z : T) (hz : ∀ x, c.ZeroValue x = z)
    (its : List (Iteration T)) (s : RelayState T) (v : T) :
    (ConflateV3.initState z).conflatedMessage = z ∧
    (ConflateV3.phase1 c s (Event.input v)).conflatedMessage =
      c.ConflateWith s.conflatedMessage v ∧
    (ConflateV3.run ri c (ConflateV3.initState z) its).1.conflatedMessage =
      cfold c z (receivedSince its) := by
  refine ⟨rfl, rfl, ?_⟩
  exact run_acc_aux ri c z hz its _ [] rfl

/-- Witness for C2 with the additive Nat conflater on a trace containing a
successful delivery followed by two further submissions. -/
theorem conflateV3_accumulator_invariant_witness :
    (ConflateV3.initState (0 : Nat)).conflatedMessage = 0 ∧
    (ConflateV3.phase1 addConflater ⟨10, some 2⟩ (Event.input 7)).conflatedMessage =
      addConflater.ConflateWith 10 7 ∧
    (ConflateV3.run 3 addConflater (ConflateV3.initState 0)
        [⟨Event.input 3, true⟩, ⟨Event.input 4, false⟩,
          ⟨Event.input 5, false⟩]).1.conflatedMessage =
      cfold addConflater 0 (receivedSince
        [⟨Event.input 3, true⟩, ⟨Event.input 4, false⟩, ⟨Event.input 5, false⟩]) :=
  conflateV3_accumulator_invariant 3 addConflater 0 (fun _ => rfl)
    [⟨Event.input 3, true⟩, ⟨Event.input 4, false⟩, ⟨Event.input 5, false⟩]
    ⟨10, some 2⟩ 7

/-- C3 (pending-retry clearing): when a new input value arrives the armed
retry timer is stopped and its channel cleared, and after any successful
delivery no armed timer remains in the relay's state, so no stale timer state
survives either event. -/
theorem conflateV3_timer_cleared {T : Type} (ri : Nat) (c : Conflater T)
    (s s' : RelayState T) (v : T) (e : Event T) :
    (ConflateV3.phase1 c s (Event.input v)).retryTimer = none ∧
    (ConflateV3.step ri c s' ⟨e, true⟩).1.retryTimer = none := by
  refine ⟨rfl, ?_⟩
  cases e <;> simp [ConflateV3.step, ConflateV3.phase1, ConflateV3.attemptDelivery]

/-- C4 (idempotent reset): immediately after every successful handoff the
accumulator equals `identity()`; a valid continuation in which no new value is
submitted produces no further delivery (the relay blocks awaiting input, since
no timer is armed after a success); and along any valid run from the start,
every successful delivery is preceded by at least one submission merged since
the previous delivery, so the bare identity value is never delivered on its
own. -/
theorem conflateV3_idempotent_reset {T : Type} (ri : Nat) (c : Conflater T)
    (z : T) (hz : ∀ x, c.ZeroValue x = z) (s : RelayState T) (e : Event T)
    (its its0 : List (Iteration T))
    (hcont : ConflateV3.validFrom ri c
      (ConflateV3.step ri c s ⟨e, true⟩).1 its = true)
    (hnoinput : inputsOf its = [])
    (hv0 : ConflateV3.validFrom ri c (ConflateV3.initState z) its0 = true) :
    (ConflateV3.step ri c s ⟨e, true⟩).1.conflatedMessage = z ∧
    (ConflateV3.run ri c (ConflateV3.step ri c s ⟨e, true⟩).1 its).2 = [] ∧
    noBareDeliveryAux false its0 = true := by
  have htn : (ConflateV3.step ri c s ⟨e, true⟩).1.retryTimer = none := by
    cases e <;> simp [ConflateV3.step, ConflateV3.phase1, ConflateV3.attemptDelivery]
  refine ⟨?_, ?_, ?_⟩
  · cases e <;>
      simp [ConflateV3.step, ConflateV3.phase1, ConflateV3.attemptDelivery, hz]
  · rw [blocked_aux ri c its _ htn hcont hnoinput]
    rfl
  · exact noBare_aux ri c its0 _ false (by simp [ConflateV3.initState]) hv0

/-- Witness for C4: a successful delivery of the merged value 5 + 3 resets the
accumulator to 0, an empty continuation delivers nothing, and a concrete valid
run never delivers without a prior submission. -/
theorem conflateV3_idempotent_reset_witness :
    (ConflateV3.step 1 addConflater ⟨5, some 2⟩ ⟨Event.input 3, true⟩).1.conflatedMessage = 0 ∧
    (ConflateV3.run 1 addConflater
      (ConflateV3.step 1 addConflater ⟨5, some 2⟩ ⟨Event.input 3, true⟩).1 []).2 = [] ∧
    noBareDeliveryAux false
      [⟨Event.input 1, true⟩, ⟨Event.input 2, false⟩,
        (⟨Event.timerFire, true⟩ : Iteration Nat)] = true :=
  conflateV3_idempotent_reset 1 addConflater 0 (fun _ => rfl) ⟨5, some 2⟩
    (Event.input 3) []
    [⟨Event.input 1, true⟩, ⟨Event.input 2, false⟩, ⟨Event.timerFire, true⟩]
    (by decide) (by decide) (by decide)

/-- C5 (retry cancellation yields one merged unit): when a submission arrives
while a retry timer is armed, the timer is stopped and cleared before the next
delivery attempt, and that attempt offers exactly the single value
`combine(old accumulator, new value)` — the old accumulator and the new value
are never handed out as two separate deliveries in that attempt. -/
theorem conflateV3_retry_cancel_merge {T : Type} (ri : Nat) (c : Conflater T)
    (s : RelayState T) (v : T) (ready : Bool)
    (_armed : s.retryTimer.isSome = true) :
    (ConflateV3.phase1 c s (Event.input v)).retryTimer = none ∧
    (ConflateV3.step ri c s ⟨Event.input v, ready⟩).2 =
      (if ready then some (c.ConflateWith s.conflatedMessage v) else none) := by
  refine ⟨rfl, ?_⟩
  cases ready <;>
    simp [ConflateV3.step, ConflateV3.phase1, ConflateV3.attemptDelivery]

/-- Witness for C5: with accumulator 5, an armed timer, and an arriving 3, the
timer is cleared and the successful attempt delivers exactly 5 + 3. -/
theorem conflateV3_retry_cancel_merge_witness :
    (ConflateV3.phase1 addConflater ⟨5, some 1⟩ (Event.input 3)).retryTimer = none ∧
    (ConflateV3.step 1 addConflater ⟨5, some 1⟩ ⟨Event.input 3, true⟩).2 =
      (if true then some (addConflater.ConflateWith 5 3) else none) :=
  conflateV3_retry_cancel_merge 1 addConflater ⟨5, some 1⟩ 3 true (by decide)

/-- C7 (failed-attempt frame): when the non-blocking delivery attempt finds
the consumer not ready, a fresh retry timer is armed for exactly the
configured retry interval, the accumulator is exactly the value the attempt
offered (not reset, not otherwise modified), and nothing is delivered. -/
theorem conflateV3_failed_attempt_frame {T : Type} (ri : Nat)
    (c : Conflater T) (s : RelayState T) (e : Event T) :
    (ConflateV3.step ri c s ⟨e, false⟩).1.retryTimer = some ri ∧
    (ConflateV3.step ri c s ⟨e, false⟩).1.conflatedMessage =
      (ConflateV3.phase1 c s e).conflatedMessage ∧
    (ConflateV3.step ri c s ⟨e, false⟩).2 = none := by
  refine ⟨?_, ?_, ?_⟩ <;> simp [ConflateV3.step, ConflateV3.attemptDelivery]

/-- C8 (eventual delivery): from any state with a pending accumulator and an
armed retry timer, if submissions cease then after any number n of retries
that find the consumer not ready, the first retry that finds the consumer
willing delivers exactly the fully combined accumulator, after which it is
reset; the whole trace is valid, so retries continue without bound until
delivery succeeds and the value is never dropped. -/
theorem conflateV3_eventual_delivery {T : Type} (ri : Nat) (c : Conflater T)
    (m : T) (d n : Nat) :
    ConflateV3.validFrom ri c ⟨m, some d⟩
      (List.replicate n ⟨Event.timerFire, false⟩ ++ [⟨Event.timerFire, true⟩]) = true ∧
    ConflateV3.run ri c ⟨m, some d⟩
      (List.replicate n ⟨Event.timerFire, false⟩ ++ [⟨Event.timerFire, true⟩]) =
      (⟨c.ZeroValue m, none⟩, [m]) := by
  induction n generalizing d with
  | zero =>
      constructor
      · simp [ConflateV3.validFrom, ConflateV3.okEventB]
      · simp [ConflateV3.run, ConflateV3.step, ConflateV3.phase1,
          ConflateV3.attemptDelivery]
  | succ n ih =>
      have hstep : ConflateV3.step ri c ⟨m, some d⟩ ⟨Event.timerFire, false⟩ =
          (⟨m, some ri⟩, none) := by
        simp [ConflateV3.step, ConflateV3.phase1, ConflateV3.attemptDelivery]
      rw [List.replicate_succ, List.cons_append]
      constructor
      · rw [ConflateV3.validFrom, Bool.and_eq_true]
        exact ⟨by simp [ConflateV3.okEventB], by rw [hstep]; exact (ih ri).1⟩
      · rw [ConflateV3.run]
        simp only [hstep]
        rw [(ih ri).2]
        simp

/-- Counterexample for C6: the relay does not deterministically handle the
input first.  The first `select` of `ConflateV3` has no priority between its
two cases: per the Go specification, when several cases can proceed the one
taken is chosen by uniform pseudo-random selection.  Concretely, with
accumulator 5, an armed fired timer, and a sender offering 3 on `inCh`, the
timer case is an admissible choice, and taking it delivers 5 while taking the
input first would deliver 8 — so the choice is observable and not
deterministic. -/
theorem conflateV3_tiebreak_counterexample :
    selectCanChoose (⟨5, some 1⟩ : RelayState Nat) (some 3) true Event.timerFire ∧
    (ConflateV3.step 1 addConflater ⟨5, some 1⟩ ⟨Event.timerFire, true⟩).2 ≠
      (ConflateV3.step 1 addConflater ⟨5, some 1⟩ ⟨Event.input 3, true⟩).2 :=
  ⟨⟨rfl, rfl⟩, by decide⟩

/-- C6 as amended: when a new input value and an armed retry-timer fire are
both available at the same instant, Go's `select` may take either case — both
the input event and the timer-fire event are admissible choices and valid next
steps of the relay; neither takes deterministic precedence. -/
theorem conflateV3_tiebreak_nondeterministic {T : Type} (s : RelayState T)
    (v : T) (h : s.retryTimer.isSome = true) :
    selectCanChoose s (some v) true (Event.input v) ∧
    selectCanChoose s (some v) true Event.timerFire ∧
    ConflateV3.okEventB s (Event.input v) = true ∧
    ConflateV3.okEventB s Event.timerFire = true :=
  ⟨rfl, ⟨rfl, h⟩, rfl, h⟩

/-- Witness for the amended C6 at a concrete armed state. -/
theorem conflateV3_tiebreak_nondeterministic_witness :
    selectCanChoose (⟨5, some 1⟩ : RelayState Nat) (some 3) true (Event.input 3) ∧
    selectCanChoose (⟨5, some 1⟩ : RelayState Nat) (some 3) true Event.timerFire ∧
    ConflateV3.okEventB (⟨5, some 1⟩ : RelayState Nat) (Event.input 3) = true ∧
    ConflateV3.okEventB (⟨5, some 1⟩ : RelayState Nat) Event.timerFire = true :=
  conflateV3_tiebreak_nondeterministic ⟨5, some 1⟩ 3 (by decide)

/-- Counterexample for C9: `ZeroValue()` is not a two-sided neutral element
for `ConflateWith` on every Sale.  The zero value's timestamp is `time.Time{}`
(here 0), and `maxTime` replaces any strictly earlier timestamp by it: for the
Sale with 0 dollars and timestamp one unit before the zero time, conflating
with `ZeroValue()` yields the zero timestamp, not the original Sale. -/
theorem sale_ZeroValue_neutral_counterexample :
    Sale.ConflateWith ⟨0, -1⟩ (Sale.ZeroValue ⟨0, -1⟩) ≠ ⟨0, -1⟩ := by
  simp [Sale.ConflateWith, Sale.ZeroValue, maxTime]

/-- C9 as amended: `ZeroValue()` leaves the dollars field unchanged on both
sides for every Sale (adding 0 dollars), and it is a two-sided neutral element
for `ConflateWith` on every Sale whose timestamp is not earlier than the zero
time; only Sales stamped strictly before `time.Time{}` have their timestamp
replaced by the zero time. -/
theorem sale_ZeroValue_neutral (s t : Sale)
    (h : (0 : ℤ) ≤ s.timestamp) :
    (Sale.ConflateWith (Sale.ZeroValue t) s).dollars = s.dollars ∧
    (Sale.ConflateWith s (Sale.ZeroValue t)).dollars = s.dollars ∧
    Sale.ConflateWith (Sale.ZeroValue t) s = s ∧
    Sale.ConflateWith s (Sale.ZeroValue t) = s := by
  obtain ⟨d, ts⟩ := s
  simp only [Sale.ConflateWith, Sale.ZeroValue, maxTime, Sale.mk.injEq] at *
  refine ⟨by ring, by ring, ⟨by ring, ?_⟩, ⟨by ring, ?_⟩⟩
  · split <;> omega
  · split <;> omega

/-- Witness for the amended C9 at the Sale worth 7 dollars stamped at 5. -/
theorem sale_ZeroValue_neutral_witness :
    (0 : ℤ) ≤ (Sale.mk 7 5).timestamp ∧
    ((Sale.ConflateWith (Sale.ZeroValue ⟨1, 2⟩) ⟨7, 5⟩).dollars =
        (Sale.mk 7 5).dollars ∧
      (Sale.ConflateWith ⟨7, 5⟩ (Sale.ZeroValue ⟨1, 2⟩)).dollars =
        (Sale.mk 7 5).dollars ∧
      Sale.ConflateWith (Sale.ZeroValue ⟨1, 2⟩) ⟨7, 5⟩ = ⟨7, 5⟩ ∧
      Sale.ConflateWith ⟨7, 5⟩ (Sale.ZeroValue ⟨1, 2⟩) = ⟨7, 5⟩) :=
  ⟨by decide, sale_ZeroValue_neutral ⟨7, 5⟩ ⟨1, 2⟩ (by decide)⟩

/-- C10 (V2 keeps only the latest value): in `ConflateV2`, along any valid
trace, the value handed out by a successful delivery attempt is exactly the
most recently submitted value at that point (each arriving value overwrites
`lastMsg` instead of being merged), so at least one submission precedes any
delivery and the contributions of earlier undelivered submissions are
discarded. -/
theorem conflateV2_latest_only {T : Type} (ri : Nat) (t0 : T)
    (pre : List (Iteration T)) (it : Iteration T)
    (hv : ConflateV2.validFrom ri (⟨t0, none⟩ : V2State T) (pre ++ [it]) = true)
    (hr : it.consumerReady = true) :
    inputsOf (pre ++ [it]) ≠ [] ∧
    (ConflateV2.step ri (ConflateV2.run ri (⟨t0, none⟩ : V2State T) pre).1 it).2 =
      some ((inputsOf (pre ++ [it])).getLastD t0) := by
  rw [v2validFrom_append, Bool.and_eq_true] at hv
  obtain ⟨hvpre, hvit⟩ := hv
  obtain ⟨hlast, htape⟩ :=
    v2run_lastMsg ri t0 pre (⟨t0, none⟩ : V2State T) [] (by simp) (by simp) hvpre
  rw [List.nil_append] at hlast htape
  obtain ⟨e, ready⟩ := it
  simp only at hr
  subst hr
  cases e with
  | input v =>
      rw [inputsOf_append]
      constructor
      · simp [inputsOf]
      · simp [ConflateV2.step, ConflateV2.phase1, ConflateV2.attemptDelivery,
          inputsOf, List.getLastD_concat]
  | timerFire =>
      rw [ConflateV2.validFrom, Bool.and_eq_true] at hvit
      have hsome : (ConflateV2.run ri (⟨t0, none⟩ : V2State T) pre).1.retryTimer.isSome =
          true := by
        simpa [ConflateV2.okEventB] using hvit.1
      have hne : inputsOf pre ≠ [] := htape hsome
      rw [inputsOf_append]
      constructor
      · simpa [inputsOf] using hne
      · simp [ConflateV2.step, ConflateV2.phase1, ConflateV2.attemptDelivery,
          inputsOf, hlast]

/-- Witness for C10: after submitting 1 then 2 with the consumer not ready,
the retry that finds it ready delivers exactly the latest value 2. -/
theorem conflateV2_latest_only_witness :
    inputsOf ([⟨Event.input 1, false⟩, ⟨Event.input 2, false⟩] ++
        [(⟨Event.timerFire, true⟩ : Iteration Nat)]) ≠ [] ∧
    (ConflateV2.step 1
        (ConflateV2.run 1 (⟨0, none⟩ : V2State Nat)
          [⟨Event.input 1, false⟩, ⟨Event.input 2, false⟩]).1
        ⟨Event.timerFire, true⟩).2 =
      some ((inputsOf ([⟨Event.input 1, false⟩, ⟨Event.input 2, false⟩] ++
        [(⟨Event.timerFire, true⟩ : Iteration Nat)])).getLastD 0) :=
  conflateV2_latest_only 1 0 [⟨Event.input 1, false⟩, ⟨Event.input 2, false⟩]
    ⟨Event.timerFire, true⟩ (by decide) rfl
